import Mathlib

/-!
Shallow embedding of the go-parsing lexer/parser engine
(`lexer/lexer.go`, `lexer/marker.go`, `lexer/tokennexter.go`,
`parser/parser.go`, `parser/marker.go`).

Modelling conventions:
* Go `rune` is `Char`; `token.Type` (a Go `int`) is `Int`.
* The `io.RuneReader` / `token.Nexter` input is a finite trace of pull
  results (`Pull`): each pull optionally yields an element and optionally
  an error (`io.EOF` or any other error).  A pull past the end of the
  trace behaves as a reader at end-of-file: no element, `io.EOF`.
* The `container/list` cache is a `List`; the `matchTail` pointer is
  represented by the `matchLen` counter (the tail always points at the
  `matchLen`-th cache element; a flush that removes cache elements also
  invalidates every marker, so index-based rewinding is faithful).
* Go panics are modelled as `Except.error` carrying the panic message.
* Transition functions (`lexer.Fn` / `parser.Fn`) are modelled following
  the engine's own design note: a type `σ` of function names plus a
  `step` dispatch function; the engine state stores `Option σ`
  (`nil` continuation = `none`).
* The `log.Printf` call for non-EOF source errors is not modelled
  (it does not affect engine state).
-/

/-- An error returned by a pull on the element source: either `io.EOF`
or any other (non-EOF) error carrying a message. -/
inductive SrcErr where
  | eofErr : SrcErr
  | otherErr : String → SrcErr
deriving DecidableEq

/-- One result of pulling on the element source (`input.ReadRune()` for
the lexer): optionally an element (`none` models size 0 or a skipped
`utf8.RuneError`), and optionally an error.  Go readers may return both
an element and an error from the same call. -/
structure Pull where
  elem : Option Char
  err : Option SrcErr
deriving DecidableEq

/-- `lexer.TLexErr`: the reserved lexer-error token type. -/
def TLexErr : Int := 0

/-- `lexer.TUnknown`. -/
def TUnknown : Int := 1

/-- `lexer.TEof`: the end-of-file token type. -/
def TEof : Int := 2

/-- `lexer.TStart`: first user-assignable token type. -/
def TStart : Int := 3

/-- `lexer._token`: type code, matched text, line and column. -/
structure Tok where
  typ : Int
  value : String
  line : Nat
  column : Nat
deriving DecidableEq

/-- `lexer.Lexer`: the lexer engine state (`lexer.go`).  `σ` is the type
of transition-function names (`lexer.Fn` values). -/
structure LexState (σ : Type) where
  input : List Pull
  cache : List Char
  matchLen : Nat
  line : Nat
  column : Nat
  nextFn : Option σ
  output : List Tok
  eof : Bool
  eofOut : Bool
  markerID : Nat
deriving DecidableEq

/-- The loop body of `Lexer.growPeek`: repeatedly pull one element from
the source until the peek region (`cache.length - matchLen`) reaches `n`
or the source signals exhaustion.  A pull that carries any error
(`io.EOF` or not) sets the `eof` flag.  The pull trace is passed
explicitly (it is the `input` field) so the recursion is structural. -/
def growPeekAux {σ : Type} (n : Nat) : List Pull → LexState σ → Bool × LexState σ
  | inp, s =>
    if n ≤ s.cache.length - s.matchLen then (true, s)
    else if s.eof then (false, s)
    else
      match inp with
      | [] => (false, { s with input := [], eof := true })
      | p :: rest =>
        growPeekAux n rest
          { s with
            input := rest,
            cache := (match p.elem with
                      | some c => s.cache ++ [c]
                      | none => s.cache),
            eof := p.err.isSome }

/-- `Lexer.growPeek`. -/
def LexState.growPeek {σ : Type} (s : LexState σ) (n : Nat) : Bool × LexState σ :=
  growPeekAux n s.input s

/-- Accumulator for the loop in `Lexer.clear`: the cache and match
counter being drained, the running line/column, the line/column of the
first matched rune (the returned position), and the collected text. -/
structure ClearSt where
  cache : List Char
  matchLen : Nat
  line : Nat
  column : Nat
  outLine : Nat
  outColumn : Nat
  first : Bool
  text : List Char

/-- The loop of `Lexer.clear`: removes matched runes from the cache
front one at a time, collecting text when requested and maintaining
line/column bookkeeping exactly as the source does. -/
def clearGo (returnText : Bool) : Nat → ClearSt → ClearSt
  | 0, st => st
  | k + 1, st =>
    match st.cache with
    | [] => st
    | r :: rest =>
      let text := if returnText then st.text ++ [r] else st.text
      let line1 := if st.line = 0 then 1 else st.line
      let col1 := if st.column = 0 then 1 else st.column
      let outLine := if st.first then line1 else st.outLine
      let outColumn := if st.first then col1 else st.outColumn
      let line2 := if r = Char.ofNat 10 then line1 + 1 else line1
      let col2 := if r = Char.ofNat 10 then 0 else col1 + 1
      clearGo returnText k
        { cache := rest, matchLen := st.matchLen - 1, line := line2, column := col2,
          outLine := outLine, outColumn := outColumn, first := false, text := text }

/-- `Lexer.clear`: discards the matched runes, optionally returning them
as a string along with their starting line/column, and increments
`markerID` (invalidating outstanding markers). -/
def LexState.clear {σ : Type} (s : LexState σ) (returnText : Bool) :
    (String × Nat × Nat) × LexState σ :=
  let st := clearGo returnText s.matchLen
    { cache := s.cache, matchLen := s.matchLen, line := s.line, column := s.column,
      outLine := s.line, outColumn := s.column, first := true, text := [] }
  ((String.mk st.text, st.outLine, st.outColumn),
   { s with cache := st.cache, matchLen := 0, line := st.line, column := st.column,
            markerID := s.markerID + 1 })

/-- `Lexer.emit` (the internal emit): clears the matched runes and
appends a token to the output queue; emitting `TEof` also resets the
peek buffer and sets the `eof`/`eofOut` flags. -/
def LexState.emit {σ : Type} (s : LexState σ) (typ : Int) (emitText : Bool) : LexState σ :=
  let r := s.clear (if typ = TEof then false else emitText)
  let s1 := r.2
  let s2 := if typ = TEof then { s1 with cache := [], eof := true, eofOut := true } else s1
  { s2 with output := s2.output ++ [⟨typ, r.1.1, r.1.2.1, r.1.2.2⟩] }

/-- `Lexer.CanPeek`. -/
def LexState.canPeek {σ : Type} (s : LexState σ) (n : Nat) :
    Except String (Bool × LexState σ) :=
  if n < 1 then .error "Lexer.CanPeek: range error"
  else if s.eofOut then .ok (false, s)
  else .ok (s.growPeek n)

/-- `Lexer.Peek`. -/
def LexState.peek {σ : Type} (s : LexState σ) (n : Nat) :
    Except String (Char × LexState σ) :=
  if n < 1 then .error "Lexer.Peek: range error"
  else if s.eofOut then .error "Lexer.Peek: No runes can be peeked after EOF is emitted"
  else
    match s.growPeek n with
    | (false, _) => .error "Lexer.Peek: No rune available"
    | (true, s1) =>
      match (s1.cache.drop s1.matchLen).get? (n - 1) with
      | some c => .ok (c, s1)
      | none => .error "Lexer.Peek: No rune available"

/-- `Lexer.Next`: matches and returns the next rune (grows `matchLen`). -/
def LexState.next {σ : Type} (s : LexState σ) :
    Except String (Char × LexState σ) :=
  if s.eofOut then .error "Lexer.Next: No runes can be matched after EOF is emitted"
  else
    match s.growPeek 1 with
    | (false, _) => .error "Lexer.Next: No rune available"
    | (true, s1) =>
      match (s1.cache.drop s1.matchLen).get? 0 with
      | some c => .ok (c, { s1 with matchLen := s1.matchLen + 1 })
      | none => .error "Lexer.Next: No rune available"

/-- `Lexer.EmitToken`. -/
def LexState.emitTokenOp {σ : Type} (s : LexState σ) (t : Int) :
    Except String (LexState σ) :=
  if s.eofOut then .error "Lexer.EmitToken: No further emits allowed after EOF is emitted"
  else .ok (s.emit t true)

/-- `Lexer.EmitType`. -/
def LexState.emitTypeOp {σ : Type} (s : LexState σ) (t : Int) :
    Except String (LexState σ) :=
  if s.eofOut then .error "Lexer.EmitType: No further emits allowed after EOF is emitted"
  else .ok (s.emit t false)

/-- The `fmt.Sprintf` format used by `Lexer.EmitError`. -/
def fmtErr (line column : Nat) (msg : String) : String :=
  toString line ++ ":" ++ toString column ++ ": " ++ msg

/-- `Lexer.EmitError`: clears the matched runes (without keeping the
text) and appends a `TLexErr` token carrying the positioned message. -/
def LexState.emitErrorOp {σ : Type} (s : LexState σ) (msg : String) :
    Except String (LexState σ) :=
  if s.eofOut then .error "Lexer.EmitError: No further emits allowed after EOF is emitted"
  else
    let s1 := (s.clear false).2
    .ok { s1 with
          output := s1.output ++
            [⟨TLexErr, fmtErr s1.line s1.column msg, s1.line, s1.column⟩] }

/-- `Lexer.EmitEOF`: convenience method calling `EmitType(TEof)`. -/
def LexState.emitEOFOp {σ : Type} (s : LexState σ) : Except String (LexState σ) :=
  s.emitTypeOp TEof

/-- `Lexer.Clear`. -/
def LexState.clearOp {σ : Type} (s : LexState σ) : Except String (LexState σ) :=
  if s.eofOut then .error "Lexer.Clear: No clears allowed after EOF is emitted"
  else .ok (s.clear false).2

/-- `lexer.Marker`: a snapshot of `markerID`, the match boundary and the
continuation (`lexer/marker.go`). -/
structure LMarker (σ : Type) where
  markerID : Nat
  matchLen : Nat
  nextFn : Option σ
deriving DecidableEq

/-- `Lexer.Marker()`: captures the current `markerID`, match boundary
and continuation. -/
def LexState.marker {σ : Type} (s : LexState σ) : LMarker σ :=
  ⟨s.markerID, s.matchLen, s.nextFn⟩

/-- `Marker.Valid`: true iff EOF has not been emitted and the engine's
`markerID` still equals the marker's. -/
def LMarker.valid {σ : Type} (m : LMarker σ) (s : LexState σ) : Bool :=
  !s.eofOut && m.markerID == s.markerID

/-- `Marker.Apply`: panics on an invalid marker; otherwise rewinds the
match boundary to the marker's value and returns the continuation that
was stored in the marker. -/
def LMarker.apply {σ : Type} (m : LMarker σ) (s : LexState σ) :
    Except String (Option σ × LexState σ) :=
  if m.valid s = false then .error "Invalid marker"
  else .ok (m.nextFn, { s with matchLen := m.matchLen })

/-- The non-panicking computation performed by `Lexer.CanPeek(1)` when
the driver checks it (the `n < 1` branch is unreachable for `n = 1`):
returns false immediately once EOF has been emitted, otherwise grows
the peek buffer. -/
def canPeekB {σ : Type} (s : LexState σ) : Bool × LexState σ :=
  if s.eofOut then (false, s) else s.growPeek 1

/-- `lexer.tokenNexter`: the consumer-facing token iterator
(`lexer/tokennexter.go`). -/
structure TNexter (σ : Type) where
  lexer : LexState σ
  next : Option Tok
  eof : Bool
deriving DecidableEq

/-- A `LexFn` dispatch: Go transition functions `func(*Lexer) Fn` are a
name `σ` plus this step function, which mutates the lexer and returns
the next continuation. -/
def LexStep (σ : Type) : Type := σ → LexState σ → LexState σ × Option σ

/-- The `for t.lexer.output.Len() == 0` loop of `tokenNexter.hasNext`,
followed by the dequeue of the front token: while the output queue is
empty, invoke the continuation if one is set and `CanPeek(1)` holds,
else auto-emit EOF if it has not been emitted.  `fuel` bounds the
number of loop iterations (the Go loop can run forever on a
non-emitting transition function); `none` means fuel ran out. -/
def tnLoop {σ : Type} (step : LexStep σ) : Nat → TNexter σ → Option (Bool × TNexter σ)
  | fuel, t =>
    match t.lexer.output with
    | tok :: rest =>
      if tok.typ = TEof then
        some (false, { t with lexer := { t.lexer with output := rest }, eof := true })
      else
        some (true, { t with lexer := { t.lexer with output := rest }, next := some tok })
    | [] =>
      match fuel with
      | 0 => none
      | fuel + 1 =>
        match t.lexer.nextFn with
        | some f =>
          let pr := canPeekB t.lexer
          if pr.1 then
            let sr := step f pr.2
            tnLoop step fuel { t with lexer := { sr.1 with nextFn := sr.2 } }
          else if pr.2.eofOut then tnLoop step fuel { t with lexer := pr.2 }
          else tnLoop step fuel { t with lexer := pr.2.emit TEof false }
        | none =>
          if t.lexer.eofOut then tnLoop step fuel t
          else tnLoop step fuel { t with lexer := t.lexer.emit TEof false }

/-- `tokenNexter.hasNext`: returns the cached token if present, `false`
forever once EOF has been reached, and otherwise drives the lexer via
`tnLoop`. -/
def tnHasNext {σ : Type} (step : LexStep σ) (fuel : Nat) (t : TNexter σ) :
    Option (Bool × TNexter σ) :=
  if t.next.isSome then some (true, t)
  else if t.eof then some (false, t)
  else tnLoop step fuel t

/-- The result of `tokenNexter.Next`: a token, a recoverable error
(`errors.New(tok.Value())` for a `TLexErr` token), or end-of-stream
(`io.EOF`). -/
inductive TRes where
  | item : Tok → TRes
  | errMsg : String → TRes
  | eofEnd : TRes
deriving DecidableEq

/-- `tokenNexter.Next`: end-of-stream when `hasNext` is false; otherwise
takes the fetched token, clears the cache slot, and surfaces a
`TLexErr` token as a recoverable error result. -/
def tnNext {σ : Type} (step : LexStep σ) (fuel : Nat) (t : TNexter σ) :
    Option (TRes × TNexter σ) :=
  match tnHasNext step fuel t with
  | none => none
  | some (false, t1) => some (.eofEnd, t1)
  | some (true, t1) =>
    match t1.next with
    | none => none
    | some tok =>
      if tok.typ = TLexErr then some (.errMsg tok.value, { t1 with next := none })
      else some (.item tok, { t1 with next := none })

/-- One result of pulling on the parser's token source
(`token.Nexter.Next()`): optionally a token, optionally an error. -/
structure PPull (ε : Type) where
  elem : Option ε
  err : Option SrcErr
deriving DecidableEq

/-- `parser.Parser`: the parser engine state (`parser.go`).  `ε` is the
element (token) type, `A` the type of non-nil AST values, `σ` the type
of transition-function names.  Output entries are `Option A`: `none` is
the `nil` end-of-stream marker. -/
structure PState (ε A σ : Type) where
  input : List (PPull ε)
  cache : List ε
  matchLen : Nat
  nextFn : Option σ
  output : List (Option A)
  eof : Bool
  eofOut : Bool
  markerID : Nat
deriving DecidableEq

/-- The loop body of `Parser.growPeek` (structurally identical to the
lexer's, over tokens). -/
def pGrowPeekAux {ε A σ : Type} (n : Nat) :
    List (PPull ε) → PState ε A σ → Bool × PState ε A σ
  | inp, s =>
    if n ≤ s.cache.length - s.matchLen then (true, s)
    else if s.eof then (false, s)
    else
      match inp with
      | [] => (false, { s with input := [], eof := true })
      | p :: rest =>
        pGrowPeekAux n rest
          { s with
            input := rest,
            cache := (match p.elem with
                      | some c => s.cache ++ [c]
                      | none => s.cache),
            eof := p.err.isSome }

/-- `Parser.growPeek`. -/
def PState.growPeek {ε A σ : Type} (s : PState ε A σ) (n : Nat) : Bool × PState ε A σ :=
  pGrowPeekAux n s.input s

/-- `Parser.clear`: discards the matched tokens from the cache front,
resets the match counter and increments `markerID`. -/
def PState.clear {ε A σ : Type} (s : PState ε A σ) : PState ε A σ :=
  { s with cache := s.cache.drop s.matchLen, matchLen := 0, markerID := s.markerID + 1 }

/-- `Parser.CanPeek`. -/
def PState.canPeek {ε A σ : Type} (s : PState ε A σ) (n : Nat) :
    Except String (Bool × PState ε A σ) :=
  if n < 1 then .error "Parser.CanPeek: range error"
  else if s.eofOut then .ok (false, s)
  else .ok (s.growPeek n)

/-- `Parser.Peek`. -/
def PState.peek {ε A σ : Type} (s : PState ε A σ) (n : Nat) :
    Except String (ε × PState ε A σ) :=
  if n < 1 then .error "Parser.Peek: range error"
  else if s.eofOut then .error "Parser.Peek: No tokens can be peeked after EOF is emitted"
  else
    match s.growPeek n with
    | (false, _) => .error "Parser.Peek: No token available"
    | (true, s1) =>
      match (s1.cache.drop s1.matchLen).get? (n - 1) with
      | some c => .ok (c, s1)
      | none => .error "Parser.Peek: No token available"

/-- `Parser.Next`. -/
def PState.next {ε A σ : Type} (s : PState ε A σ) :
    Except String (ε × PState ε A σ) :=
  if s.eofOut then .error "Parser.Next: No tokens can be matched after EOF is emitted"
  else
    match s.growPeek 1 with
    | (false, _) => .error "Parser.Next: No token available"
    | (true, s1) =>
      match (s1.cache.drop s1.matchLen).get? 0 with
      | some c => .ok (c, { s1 with matchLen := s1.matchLen + 1 })
      | none => .error "Parser.Next: No token available"

/-- The EOF branch of `Parser.emit` (reached when the emitted AST is
`nil`): resets the match boundary and peek buffer, manually increments
`markerID`, sets the EOF flags and enqueues the `nil` marker. -/
def pForceEOF {ε A σ : Type} (s : PState ε A σ) : PState ε A σ :=
  { s with matchLen := 0, cache := [], markerID := s.markerID + 1,
           eof := true, eofOut := true, output := s.output ++ [none] }

/-- `Parser.emit` (the internal emit): panics after EOF; emitting `nil`
is the EOF branch, otherwise clears the matched tokens and enqueues the
AST. -/
def PState.emitGo {ε A σ : Type} (s : PState ε A σ) (ast : Option A) :
    Except String (PState ε A σ) :=
  if s.eofOut then .error "Parser: No further emits allowed after EOF is emitted"
  else
    match ast with
    | none => .ok (pForceEOF s)
    | some a => .ok { s.clear with output := s.clear.output ++ [some a] }

/-- `Parser.Emit`. -/
def PState.emitOp {ε A σ : Type} (s : PState ε A σ) (ast : Option A) :
    Except String (PState ε A σ) :=
  if s.eofOut then .error "Parser.Emit: No further emits allowed after EOF is emitted"
  else s.emitGo ast

/-- `Parser.EmitEOF`: convenience method calling `Emit(nil)`. -/
def PState.emitEOFOp {ε A σ : Type} (s : PState ε A σ) : Except String (PState ε A σ) :=
  s.emitOp none

/-- `Parser.Clear`. -/
def PState.clearOp {ε A σ : Type} (s : PState ε A σ) : Except String (PState ε A σ) :=
  if s.eofOut then .error "Parser.Clear: No clears allowed after EOF is emitted"
  else .ok s.clear

/-- `parser.Marker` (`parser/marker.go`): a snapshot of `markerID`, the
match boundary and the continuation. -/
structure PMarker (σ : Type) where
  markerID : Nat
  matchLen : Nat
  nextFn : Option σ
deriving DecidableEq

/-- `Parser.Marker()`. -/
def PState.marker {ε A σ : Type} (s : PState ε A σ) : PMarker σ :=
  ⟨s.markerID, s.matchLen, s.nextFn⟩

/-- `Parser.CanReset`. -/
def PState.canReset {ε A σ : Type} (s : PState ε A σ) (m : PMarker σ) : Bool :=
  !s.eofOut && m.markerID == s.markerID

/-- `Parser.Reset`: panics on an invalid marker; otherwise rewinds the
match boundary to the marker's value.  As in the source, the returned
continuation is the parser's current `nextFn`, not the one stored in
the marker. -/
def PState.reset {ε A σ : Type} (s : PState ε A σ) (m : PMarker σ) :
    Except String (Option σ × PState ε A σ) :=
  if s.canReset m = false then .error "Invalid marker"
  else .ok (s.nextFn, { s with matchLen := m.matchLen })

/-- `parser.astNexter`: the consumer-facing AST iterator
(`parser/marker.go`, second half). -/
structure ANexter (ε A σ : Type) where
  parser : PState ε A σ
  next : Option A
  eof : Bool
deriving DecidableEq

/-- A `Parser.Fn` dispatch, analogous to `LexStep`. -/
def ParStep (ε A σ : Type) : Type := σ → PState ε A σ → PState ε A σ × Option σ

/-- The non-panicking computation of `Parser.CanPeek(1)` as performed by
the driver. -/
def pCanPeekB {ε A σ : Type} (s : PState ε A σ) : Bool × PState ε A σ :=
  if s.eofOut then (false, s) else s.growPeek 1

/-- The `for e.parser.output.Len() == 0` loop of `astNexter.hasNext`
plus the dequeue of the front entry; a dequeued `nil` marks
end-of-stream. -/
def anLoop {ε A σ : Type} (step : ParStep ε A σ) :
    Nat → ANexter ε A σ → Option (Bool × ANexter ε A σ)
  | fuel, t =>
    match t.parser.output with
    | e :: rest =>
      match e with
      | none => some (false, { t with parser := { t.parser with output := rest }, eof := true })
      | some a =>
        some (true, { t with parser := { t.parser with output := rest }, next := some a })
    | [] =>
      match fuel with
      | 0 => none
      | fuel + 1 =>
        match t.parser.nextFn with
        | some f =>
          let pr := pCanPeekB t.parser
          if pr.1 then
            let sr := step f pr.2
            anLoop step fuel { t with parser := { sr.1 with nextFn := sr.2 } }
          else if pr.2.eofOut then anLoop step fuel { t with parser := pr.2 }
          else anLoop step fuel { t with parser := pForceEOF pr.2 }
        | none =>
          if t.parser.eofOut then anLoop step fuel t
          else anLoop step fuel { t with parser := pForceEOF t.parser }

/-- `astNexter.hasNext`. -/
def anHasNext {ε A σ : Type} (step : ParStep ε A σ) (fuel : Nat) (t : ANexter ε A σ) :
    Option (Bool × ANexter ε A σ) :=
  if t.next.isSome then some (true, t)
  else if t.eof then some (false, t)
  else anLoop step fuel t

/-- The result of `astNexter.Next`: an AST or end-of-stream (`io.EOF`). -/
inductive ARes (A : Type) where
  | item : A → ARes A
  | eofEnd : ARes A
deriving DecidableEq

/-- `astNexter.Next`. -/
def anNext {ε A σ : Type} (step : ParStep ε A σ) (fuel : Nat) (t : ANexter ε A σ) :
    Option (ARes A × ANexter ε A σ) :=
  match anHasNext step fuel t with
  | none => none
  | some (false, t1) => some (.eofEnd, t1)
  | some (true, t1) =>
    match t1.next with
    | none => none
    | some a => some (.item a, { t1 with next := none })

/-! ### Supporting lemmas about the peek-growth loop -/

/-- `growPeek` never touches the emitted-EOF flag, the match counter,
the output queue or the continuation. -/
theorem growPeekAux_frame {σ : Type} (n : Nat) (inp : List Pull) :
    ∀ (s : LexState σ),
      (growPeekAux n inp s).2.eofOut = s.eofOut ∧
      (growPeekAux n inp s).2.matchLen = s.matchLen ∧
      (growPeekAux n inp s).2.output = s.output ∧
      (growPeekAux n inp s).2.nextFn = s.nextFn ∧
      (growPeekAux n inp s).2.markerID = s.markerID := by
  induction inp with
  | nil =>
    intro s
    simp only [growPeekAux]
    split
    · exact ⟨rfl, rfl, rfl, rfl, rfl⟩
    · split
      · exact ⟨rfl, rfl, rfl, rfl, rfl⟩
      · exact ⟨rfl, rfl, rfl, rfl, rfl⟩
  | cons p rest ih =>
    intro s
    simp only [growPeekAux]
    split
    · exact ⟨rfl, rfl, rfl, rfl, rfl⟩
    · split
      · exact ⟨rfl, rfl, rfl, rfl, rfl⟩
      · exact ih _

/-- A successful `growPeek` leaves at least `n` elements in the peek
region. -/
theorem growPeekAux_true_len {σ : Type} (n : Nat) (inp : List Pull) :
    ∀ (s s1 : LexState σ), growPeekAux n inp s = (true, s1) →
      n ≤ s1.cache.length - s1.matchLen := by
  induction inp with
  | nil =>
    intro s s1 h
    simp only [growPeekAux] at h
    split at h
    · obtain ⟨-, rfl⟩ := Prod.mk.inj h
      assumption
    · split at h <;> simp at h
  | cons p rest ih =>
    intro s s1 h
    simp only [growPeekAux] at h
    split at h
    · obtain ⟨-, rfl⟩ := Prod.mk.inj h
      assumption
    · split at h
      · simp at h
      · exact ih _ _ h

/-- When the peek region already holds `n` elements, `growPeek` is the
identity. -/
theorem growPeekAux_already {σ : Type} (n : Nat) (inp : List Pull) (s : LexState σ)
    (h : n ≤ s.cache.length - s.matchLen) : growPeekAux n inp s = (true, s) := by
  cases inp with
  | nil =>
    simp only [growPeekAux]
    rw [if_pos h]
  | cons p rest =>
    simp only [growPeekAux]
    rw [if_pos h]

/-- A successful `growPeek` is idempotent: re-running it on the grown
state changes nothing. -/
theorem growPeek_idem {σ : Type} (n : Nat) (s s1 : LexState σ)
    (h : s.growPeek n = (true, s1)) : s1.growPeek n = (true, s1) :=
  growPeekAux_already n s1.input s1 (growPeekAux_true_len n s.input s s1 h)

/-- Parser analogue of `growPeekAux_frame`. -/
theorem pGrowPeekAux_frame {ε A σ : Type} (n : Nat) (inp : List (PPull ε)) :
    ∀ (s : PState ε A σ),
      (pGrowPeekAux n inp s).2.eofOut = s.eofOut ∧
      (pGrowPeekAux n inp s).2.matchLen = s.matchLen ∧
      (pGrowPeekAux n inp s).2.output = s.output ∧
      (pGrowPeekAux n inp s).2.nextFn = s.nextFn ∧
      (pGrowPeekAux n inp s).2.markerID = s.markerID := by
  induction inp with
  | nil =>
    intro s
    simp only [pGrowPeekAux]
    split
    · exact ⟨rfl, rfl, rfl, rfl, rfl⟩
    · split
      · exact ⟨rfl, rfl, rfl, rfl, rfl⟩
      · exact ⟨rfl, rfl, rfl, rfl, rfl⟩
  | cons p rest ih =>
    intro s
    simp only [pGrowPeekAux]
    split
    · exact ⟨rfl, rfl, rfl, rfl, rfl⟩
    · split
      · exact ⟨rfl, rfl, rfl, rfl, rfl⟩
      · exact ih _

/-- Parser analogue of `growPeekAux_true_len`. -/
theorem pGrowPeekAux_true_len {ε A σ : Type} (n : Nat) (inp : List (PPull ε)) :
    ∀ (s s1 : PState ε A σ), pGrowPeekAux n inp s = (true, s1) →
      n ≤ s1.cache.length - s1.matchLen := by
  induction inp with
  | nil =>
    intro s s1 h
    simp only [pGrowPeekAux] at h
    split at h
    · obtain ⟨-, rfl⟩ := Prod.mk.inj h
      assumption
    · split at h <;> simp at h
  | cons p rest ih =>
    intro s s1 h
    simp only [pGrowPeekAux] at h
    split at h
    · obtain ⟨-, rfl⟩ := Prod.mk.inj h
      assumption
    · split at h
      · simp at h
      · exact ih _ _ h

/-- Parser analogue of `growPeekAux_already`. -/
theorem pGrowPeekAux_already {ε A σ : Type} (n : Nat) (inp : List (PPull ε))
    (s : PState ε A σ) (h : n ≤ s.cache.length - s.matchLen) :
    pGrowPeekAux n inp s = (true, s) := by
  cases inp with
  | nil =>
    simp only [pGrowPeekAux]
    rw [if_pos h]
  | cons p rest =>
    simp only [pGrowPeekAux]
    rw [if_pos h]

/-- Parser analogue of `growPeek_idem`. -/
theorem pGrowPeek_idem {ε A σ : Type} (n : Nat) (s s1 : PState ε A σ)
    (h : s.growPeek n = (true, s1)) : s1.growPeek n = (true, s1) :=
  pGrowPeekAux_already n s1.input s1 (pGrowPeekAux_true_len n s.input s s1 h)

/-! ### Supporting lemmas about emit and the pull-driver loops -/

/-- Emitting `TEof` resets the peek buffer and the match boundary, sets
both EOF flags, increments `markerID` once, and appends exactly one
`TEof` token to the output queue. -/
theorem emit_TEof_spec {σ : Type} (s : LexState σ) :
    ∃ v li co li2 co2,
      s.emit TEof false =
        ⟨s.input, [], 0, li2, co2, s.nextFn,
         s.output ++ [⟨TEof, v, li, co⟩], true, true, s.markerID + 1⟩ := by
  exact ⟨_, _, _, _, _, rfl⟩

/-- If the driver loop reports end-of-stream, the resulting nexter has
no cached token and its `eof` flag is set. -/
theorem tnLoop_false_inv {σ : Type} (step : LexStep σ) :
    ∀ (fuel : Nat) (t t1 : TNexter σ), t.next = none →
      tnLoop step fuel t = some (false, t1) → t1.next = none ∧ t1.eof = true := by
  intro fuel
  induction fuel with
  | zero =>
    rintro ⟨⟨inp, cach, mlen, lin, col, nfn, outq, efi, efo, mid⟩, nx, ef⟩ t1 hn h
    simp only at hn
    subst hn
    cases outq with
    | cons tok rest =>
      simp only [tnLoop] at h
      split at h
      · simp only [Option.some.injEq, Prod.mk.injEq] at h
        obtain ⟨-, rfl⟩ := h
        exact ⟨rfl, rfl⟩
      · simp at h
    | nil =>
      simp only [tnLoop] at h
      exact Option.noConfusion h
  | succ fuel ih =>
    rintro ⟨⟨inp, cach, mlen, lin, col, nfn, outq, efi, efo, mid⟩, nx, ef⟩ t1 hn h
    simp only at hn
    subst hn
    cases outq with
    | cons tok rest =>
      simp only [tnLoop] at h
      split at h
      · simp only [Option.some.injEq, Prod.mk.injEq] at h
        obtain ⟨-, rfl⟩ := h
        exact ⟨rfl, rfl⟩
      · simp at h
    | nil =>
      cases nfn with
      | some f =>
        simp only [tnLoop] at h
        split at h
        · exact ih _ _ rfl h
        · split at h
          · exact ih _ _ rfl h
          · exact ih _ _ rfl h
      | none =>
        simp only [tnLoop] at h
        split at h
        · exact ih _ _ rfl h
        · exact ih _ _ rfl h

/-- If `hasNext` reports end-of-stream, the resulting nexter has no
cached token and its `eof` flag is set. -/
theorem tnHasNext_false_inv {σ : Type} (step : LexStep σ) (fuel : Nat)
    (t t1 : TNexter σ) (h : tnHasNext step fuel t = some (false, t1)) :
    t1.next = none ∧ t1.eof = true := by
  simp only [tnHasNext] at h
  split at h
  · simp at h
  · split at h
    · simp only [Option.some.injEq, Prod.mk.injEq] at h
      obtain ⟨-, rfl⟩ := h
      exact ⟨Option.not_isSome_iff_eq_none.mp (by assumption), by assumption⟩
    · exact tnLoop_false_inv step fuel t t1 (Option.not_isSome_iff_eq_none.mp (by assumption)) h

/-- If `tokenNexter.Next` returns End, the resulting nexter has no
cached token and its `eof` flag is set. -/
theorem tnNext_eofEnd_inv {σ : Type} (step : LexStep σ) (fuel : Nat)
    (t t1 : TNexter σ) (h : tnNext step fuel t = some (.eofEnd, t1)) :
    t1.next = none ∧ t1.eof = true := by
  simp only [tnNext] at h
  split at h
  · exact Option.noConfusion h
  · rename_i heq
    simp only [Option.some.injEq, Prod.mk.injEq] at h
    obtain ⟨-, rfl⟩ := h
    exact tnHasNext_false_inv step fuel t _ heq
  · split at h
    · exact Option.noConfusion h
    · split at h <;> simp at h

/-- A nexter with no cached token and the `eof` flag set answers End to
every `Next` call. -/
theorem tnNext_end_forever {σ : Type} (step : LexStep σ) (fuel : Nat)
    (t : TNexter σ) (h1 : t.next = none) (h2 : t.eof = true) :
    tnNext step fuel t = some (.eofEnd, t) := by
  simp only [tnNext, tnHasNext, h1, h2, Option.isSome_none, Bool.false_eq_true,
    if_false, if_true]

/-- Parser analogue of `tnLoop_false_inv`. -/
theorem anLoop_false_inv {ε A σ : Type} (step : ParStep ε A σ) :
    ∀ (fuel : Nat) (t t1 : ANexter ε A σ), t.next = none →
      anLoop step fuel t = some (false, t1) → t1.next = none ∧ t1.eof = true := by
  intro fuel
  induction fuel with
  | zero =>
    rintro ⟨⟨inp, cach, mlen, nfn, outq, efi, efo, mid⟩, nx, ef⟩ t1 hn h
    simp only at hn
    subst hn
    cases outq with
    | cons e rest =>
      cases e with
      | none =>
        simp only [anLoop] at h
        simp only [Option.some.injEq, Prod.mk.injEq] at h
        obtain ⟨-, rfl⟩ := h
        exact ⟨rfl, rfl⟩
      | some a =>
        simp only [anLoop] at h
        simp at h
    | nil =>
      simp only [anLoop] at h
      exact Option.noConfusion h
  | succ fuel ih =>
    rintro ⟨⟨inp, cach, mlen, nfn, outq, efi, efo, mid⟩, nx, ef⟩ t1 hn h
    simp only at hn
    subst hn
    cases outq with
    | cons e rest =>
      cases e with
      | none =>
        simp only [anLoop] at h
        simp only [Option.some.injEq, Prod.mk.injEq] at h
        obtain ⟨-, rfl⟩ := h
        exact ⟨rfl, rfl⟩
      | some a =>
        simp only [anLoop] at h
        simp at h
    | nil =>
      cases nfn with
      | some f =>
        simp only [anLoop] at h
        split at h
        · exact ih _ _ rfl h
        · split at h
          · exact ih _ _ rfl h
          · exact ih _ _ rfl h
      | none =>
        simp only [anLoop] at h
        split at h
        · exact ih _ _ rfl h
        · exact ih _ _ rfl h

/-- Parser analogue of `tnHasNext_false_inv`. -/
theorem anHasNext_false_inv {ε A σ : Type} (step : ParStep ε A σ) (fuel : Nat)
    (t t1 : ANexter ε A σ) (h : anHasNext step fuel t = some (false, t1)) :
    t1.next = none ∧ t1.eof = true := by
  simp only [anHasNext] at h
  split at h
  · simp at h
  · split at h
    · simp only [Option.some.injEq, Prod.mk.injEq] at h
      obtain ⟨-, rfl⟩ := h
      exact ⟨Option.not_isSome_iff_eq_none.mp (by assumption), by assumption⟩
    · exact anLoop_false_inv step fuel t t1 (Option.not_isSome_iff_eq_none.mp (by assumption)) h

/-- Parser analogue of `tnNext_eofEnd_inv`. -/
theorem anNext_eofEnd_inv {ε A σ : Type} (step : ParStep ε A σ) (fuel : Nat)
    (t t1 : ANexter ε A σ) (h : anNext step fuel t = some (.eofEnd, t1)) :
    t1.next = none ∧ t1.eof = true := by
  simp only [anNext] at h
  split at h
  · exact Option.noConfusion h
  · rename_i heq
    simp only [Option.some.injEq, Prod.mk.injEq] at h
    obtain ⟨-, rfl⟩ := h
    exact anHasNext_false_inv step fuel t _ heq
  · split at h
    · exact Option.noConfusion h
    · simp at h

/-- Parser analogue of `tnNext_end_forever`. -/
theorem anNext_end_forever {ε A σ : Type} (step : ParStep ε A σ) (fuel : Nat)
    (t : ANexter ε A σ) (h1 : t.next = none) (h2 : t.eof = true) :
    anNext step fuel t = some (.eofEnd, t) := by
  simp only [anNext, anHasNext, h1, h2, Option.isSome_none, Bool.false_eq_true,
    if_false, if_true]

/-! ### Claim theorems -/

/-- A lexer state in which EOF has been emitted (used to exhibit
post-terminal behaviour on concrete inputs). -/
def c2LexEofSt : LexState Nat :=
  ⟨[], [], 0, 0, 0, none, [], true, true, 3⟩

/-- A parser state in which EOF has been emitted. -/
def c2ParEofSt : PState Int Int Nat :=
  ⟨[], [], 0, none, [], true, true, 3⟩

/-- C2 (counterexample): the claim says `canPeek(n)` fails with a fatal
PostTerminal error once the terminal has been emitted; on the code,
`CanPeek` after EOF returns `false` normally and never fails, for both
the lexer and the parser. -/
theorem c2_canPeek_returns_false_after_eof :
    c2LexEofSt.canPeek 1 = .ok (false, c2LexEofSt) ∧
    (∀ msg, c2LexEofSt.canPeek 1 ≠ .error msg) ∧
    c2ParEofSt.canPeek 1 = .ok (false, c2ParEofSt) ∧
    (∀ msg, c2ParEofSt.canPeek 1 ≠ .error msg) := by
  refine ⟨rfl, ?_, rfl, ?_⟩
  · intro msg h
    rw [show c2LexEofSt.canPeek 1 = .ok (false, c2LexEofSt) from rfl] at h
    exact Except.noConfusion h
  · intro msg h
    rw [show c2ParEofSt.canPeek 1 = .ok (false, c2ParEofSt) from rfl] at h
    exact Except.noConfusion h

/-- C2 (amended): after the terminal has been emitted, `peek`, `next`,
the emit operations, `clear` and marker application all fail fatally
(the marker failure being the InvalidMarker panic), while `canPeek`
merely returns false, for both the lexer and the parser. -/
theorem c2_post_terminal_ops {σ ε A π : Type} (s : LexState σ) (h : s.eofOut = true)
    (n : Nat) (hn : 1 ≤ n) (ty : Int) (msg : String) (m : LMarker σ)
    (sp : PState ε A π) (hp : sp.eofOut = true) (a : Option A) (pm : PMarker π) :
    s.canPeek n = .ok (false, s) ∧
    s.peek n = .error "Lexer.Peek: No runes can be peeked after EOF is emitted" ∧
    s.next = .error "Lexer.Next: No runes can be matched after EOF is emitted" ∧
    s.emitTokenOp ty = .error "Lexer.EmitToken: No further emits allowed after EOF is emitted" ∧
    s.emitTypeOp ty = .error "Lexer.EmitType: No further emits allowed after EOF is emitted" ∧
    s.emitErrorOp msg = .error "Lexer.EmitError: No further emits allowed after EOF is emitted" ∧
    s.clearOp = .error "Lexer.Clear: No clears allowed after EOF is emitted" ∧
    m.apply s = .error "Invalid marker" ∧
    sp.canPeek n = .ok (false, sp) ∧
    sp.peek n = .error "Parser.Peek: No tokens can be peeked after EOF is emitted" ∧
    sp.next = .error "Parser.Next: No tokens can be matched after EOF is emitted" ∧
    sp.emitOp a = .error "Parser.Emit: No further emits allowed after EOF is emitted" ∧
    sp.clearOp = .error "Parser.Clear: No clears allowed after EOF is emitted" ∧
    sp.reset pm = .error "Invalid marker" := by
  have hnlt : ¬ n < 1 := by omega
  refine ⟨?_, ?_, ?_, ?_, ?_, ?_, ?_, ?_, ?_, ?_, ?_, ?_, ?_, ?_⟩
  · simp [LexState.canPeek, hnlt, h]
  · simp [LexState.peek, hnlt, h]
  · simp [LexState.next, h]
  · simp [LexState.emitTokenOp, h]
  · simp [LexState.emitTypeOp, h]
  · simp [LexState.emitErrorOp, h]
  · simp [LexState.clearOp, h]
  · simp [LMarker.apply, LMarker.valid, h]
  · simp [PState.canPeek, hnlt, hp]
  · simp [PState.peek, hnlt, hp]
  · simp [PState.next, hp]
  · simp [PState.emitOp, hp]
  · simp [PState.clearOp, hp]
  · simp [PState.reset, PState.canReset, hp]

/-- Witness for `c2_post_terminal_ops` at concrete post-EOF states. -/
theorem c2_post_terminal_ops_witness :
    (c2LexEofSt.eofOut = true ∧ 1 ≤ 1 ∧ c2ParEofSt.eofOut = true) ∧
    (c2LexEofSt.canPeek 1 = .ok (false, c2LexEofSt) ∧
     c2LexEofSt.peek 1 = .error "Lexer.Peek: No runes can be peeked after EOF is emitted" ∧
     c2LexEofSt.next = .error "Lexer.Next: No runes can be matched after EOF is emitted" ∧
     c2LexEofSt.emitTokenOp TStart = .error "Lexer.EmitToken: No further emits allowed after EOF is emitted" ∧
     c2LexEofSt.emitTypeOp TStart = .error "Lexer.EmitType: No further emits allowed after EOF is emitted" ∧
     c2LexEofSt.emitErrorOp "m" = .error "Lexer.EmitError: No further emits allowed after EOF is emitted" ∧
     c2LexEofSt.clearOp = .error "Lexer.Clear: No clears allowed after EOF is emitted" ∧
     LMarker.apply ⟨3, 0, none⟩ c2LexEofSt = .error "Invalid marker" ∧
     c2ParEofSt.canPeek 1 = .ok (false, c2ParEofSt) ∧
     c2ParEofSt.peek 1 = .error "Parser.Peek: No tokens can be peeked after EOF is emitted" ∧
     c2ParEofSt.next = .error "Parser.Next: No tokens can be matched after EOF is emitted" ∧
     c2ParEofSt.emitOp (some 7) = .error "Parser.Emit: No further emits allowed after EOF is emitted" ∧
     c2ParEofSt.clearOp = .error "Parser.Clear: No clears allowed after EOF is emitted" ∧
     c2ParEofSt.reset ⟨3, 0, none⟩ = .error "Invalid marker") :=
  ⟨⟨rfl, le_refl 1, rfl⟩,
   c2_post_terminal_ops c2LexEofSt rfl 1 (le_refl 1) TStart "m" ⟨3, 0, none⟩
     c2ParEofSt rfl (some 7) ⟨3, 0, none⟩⟩

/-- A lexer state with one matched rune, a second cached rune, and the
active continuation `1`. -/
def c3LexSt : LexState Nat :=
  ⟨[], ['a', 'b'], 1, 0, 0, some 1, [], false, false, 5⟩

/-- A lexer marker captured on `c3LexSt` when its match boundary was 0
and its continuation was `0`. -/
def c3LexM : LMarker Nat :=
  ⟨5, 0, some 0⟩

/-- A parser state with one matched token, a second cached token, and
the active continuation `1`. -/
def c3ParSt : PState Int Int Nat :=
  ⟨[], [7, 8], 1, some 1, [], false, false, 5⟩

/-- A parser marker captured on `c3ParSt` when its match boundary was 0
and its continuation was `0`. -/
def c3ParM : PMarker Nat :=
  ⟨5, 0, some 0⟩

/-- C3: the lexer's `Marker.Apply` rewinds the match boundary and
returns the continuation stored in the marker; the parser's
`Parser.Reset` rewinds the match boundary identically but returns the
parser's *current* continuation, not the one stored in the marker —
contradicting both the claim and the method's own documentation. -/
theorem c3_reset_returns_current_continuation :
    c3LexM.apply c3LexSt = .ok (some 0, { c3LexSt with matchLen := 0 }) ∧
    c3ParSt.reset c3ParM = .ok (some 1, { c3ParSt with matchLen := 0 }) ∧
    c3ParM.nextFn = some 0 ∧
    c3ParSt.nextFn = some 1 ∧
    c3ParSt.reset c3ParM ≠ .ok (c3ParM.nextFn, { c3ParSt with matchLen := 0 }) := by
  refine ⟨rfl, rfl, rfl, rfl, ?_⟩
  intro hcontra
  rw [show c3ParSt.reset c3ParM = .ok (some 1, { c3ParSt with matchLen := 0 }) from rfl,
      show c3ParM.nextFn = some 0 from rfl] at hcontra
  simp at hcontra

/-- C8: `growPeek` processes a pull whose error is a non-EOF error
exactly as it processes a pull whose error is `io.EOF` (the error kind
is never inspected), for both the lexer and the parser; and `canPeek`
never raises an error to its caller for in-range `n`, whatever the
source does. -/
theorem c8_non_eof_error_is_exhaustion {σ ε A π : Type} (n : Nat)
    (el : Option Char) (e : SrcErr) (rest : List Pull) (s : LexState σ)
    (pel : Option ε) (prest : List (PPull ε)) (sp : PState ε A π)
    (hn : 1 ≤ n) :
    growPeekAux n (⟨el, some e⟩ :: rest) s =
      growPeekAux n (⟨el, some SrcErr.eofErr⟩ :: rest) s ∧
    pGrowPeekAux n (⟨pel, some e⟩ :: prest) sp =
      pGrowPeekAux n (⟨pel, some SrcErr.eofErr⟩ :: prest) sp ∧
    (∃ b s2, LexState.canPeek { s with input := ⟨el, some e⟩ :: rest } n = .ok (b, s2)) ∧
    (∃ b s2, PState.canPeek { sp with input := ⟨pel, some e⟩ :: prest } n = .ok (b, s2)) := by
  have hnlt : ¬ n < 1 := by omega
  refine ⟨rfl, rfl, ?_, ?_⟩
  · simp only [LexState.canPeek]
    rw [if_neg hnlt]
    split
    · exact ⟨_, _, rfl⟩
    · exact ⟨_, _, rfl⟩
  · simp only [PState.canPeek]
    rw [if_neg hnlt]
    split
    · exact ⟨_, _, rfl⟩
    · exact ⟨_, _, rfl⟩

/-- A lexer state whose source reports a non-EOF error on the first
pull. -/
def c8LexSt : LexState Nat :=
  ⟨[⟨none, some (SrcErr.otherErr "boom")⟩], [], 0, 0, 0, none, [], false, false, 0⟩

/-- A parser state whose source reports a non-EOF error on the first
pull. -/
def c8ParSt : PState Int Int Nat :=
  ⟨[⟨none, some (SrcErr.otherErr "boom")⟩], [], 0, none, [], false, false, 0⟩

/-- Witness for `c8_non_eof_error_is_exhaustion` at a concrete state
whose source reports a non-EOF error. -/
theorem c8_non_eof_error_is_exhaustion_witness :
    (1 ≤ 1) ∧
    (growPeekAux 1 [⟨none, some (SrcErr.otherErr "boom")⟩] c8LexSt =
       growPeekAux 1 [⟨none, some SrcErr.eofErr⟩] c8LexSt ∧
     pGrowPeekAux 1 [⟨(none : Option Int), some (SrcErr.otherErr "boom")⟩] c8ParSt =
       pGrowPeekAux 1 [⟨none, some SrcErr.eofErr⟩] c8ParSt ∧
     (∃ b s2, LexState.canPeek
        { c8LexSt with input := [⟨none, some (SrcErr.otherErr "boom")⟩] } 1 = .ok (b, s2)) ∧
     (∃ b s2, PState.canPeek
        { c8ParSt with input := [⟨none, some (SrcErr.otherErr "boom")⟩] } 1 = .ok (b, s2))) :=
  ⟨le_refl 1,
   c8_non_eof_error_is_exhaustion 1 none (SrcErr.otherErr "boom") [] c8LexSt
     none [] c8ParSt (le_refl 1)⟩

/-- C10: applying a valid marker is not a flush: lexer `Marker.Apply`
and parser `Parser.Reset` change only the match boundary (the epoch
counter, cache and output queue are untouched), the marker remains
valid afterwards, and applying it again yields the same state. -/
theorem c10_apply_is_not_a_flush {σ ε A π : Type} (s : LexState σ) (m : LMarker σ)
    (h : m.valid s = true) (sp : PState ε A π) (pm : PMarker π)
    (hp : sp.canReset pm = true) :
    m.apply s = .ok (m.nextFn, { s with matchLen := m.matchLen }) ∧
    m.valid { s with matchLen := m.matchLen } = true ∧
    m.apply { s with matchLen := m.matchLen } =
      .ok (m.nextFn, { s with matchLen := m.matchLen }) ∧
    sp.reset pm = .ok (sp.nextFn, { sp with matchLen := pm.matchLen }) ∧
    PState.canReset { sp with matchLen := pm.matchLen } pm = true ∧
    PState.reset { sp with matchLen := pm.matchLen } pm =
      .ok (sp.nextFn, { sp with matchLen := pm.matchLen }) := by
  have h2 : m.valid { s with matchLen := m.matchLen } = true := h
  have hp2 : PState.canReset { sp with matchLen := pm.matchLen } pm = true := hp
  refine ⟨?_, h2, ?_, ?_, hp2, ?_⟩
  · simp [LMarker.apply, h]
  · simp [LMarker.apply, h2]
  · simp [PState.reset, hp]
  · simp [PState.reset, hp2]

/-- Witness for `c10_apply_is_not_a_flush` at concrete states and
markers. -/
theorem c10_apply_is_not_a_flush_witness :
    (LMarker.valid ⟨5, 0, some 0⟩ c3LexSt = true ∧
     c3ParSt.canReset ⟨5, 0, some 0⟩ = true) ∧
    (LMarker.apply ⟨5, 0, some 0⟩ c3LexSt =
       .ok (some 0, { c3LexSt with matchLen := 0 }) ∧
     LMarker.valid ⟨5, 0, some 0⟩ { c3LexSt with matchLen := 0 } = true ∧
     LMarker.apply ⟨5, 0, some 0⟩ { c3LexSt with matchLen := 0 } =
       .ok (some 0, { c3LexSt with matchLen := 0 }) ∧
     c3ParSt.reset ⟨5, 0, some 0⟩ =
       .ok (c3ParSt.nextFn, { c3ParSt with matchLen := 0 }) ∧
     PState.canReset { c3ParSt with matchLen := 0 } ⟨5, 0, some 0⟩ = true ∧
     PState.reset { c3ParSt with matchLen := 0 } ⟨5, 0, some 0⟩ =
       .ok (c3ParSt.nextFn, { c3ParSt with matchLen := 0 })) :=
  ⟨⟨rfl, rfl⟩,
   c10_apply_is_not_a_flush c3LexSt ⟨5, 0, some 0⟩ rfl c3ParSt ⟨5, 0, some 0⟩ rfl⟩

/-- A flush result on the lexer: the operation succeeds, increments
`markerID` by exactly one, and every marker taken at or before the
pre-flush state fails `Valid`. -/
def lexBump {σ : Type} (s : LexState σ) (r : Except String (LexState σ)) : Prop :=
  ∃ s1, r = .ok s1 ∧ s1.markerID = s.markerID + 1 ∧
    ∀ m : LMarker σ, m.markerID ≤ s.markerID → m.valid s1 = false

/-- A flush result on the parser, analogous to `lexBump`. -/
def parBump {ε A σ : Type} (s : PState ε A σ) (r : Except String (PState ε A σ)) : Prop :=
  ∃ s1, r = .ok s1 ∧ s1.markerID = s.markerID + 1 ∧
    ∀ m : PMarker σ, m.markerID ≤ s.markerID → s1.canReset m = false

/-- `markerID` after the internal emit. -/
theorem emit_markerID {σ : Type} (s : LexState σ) (ty : Int) (b : Bool) :
    (s.emit ty b).markerID = s.markerID + 1 := by
  simp only [LexState.emit, LexState.clear]
  split <;> rfl

/-- C4: every flush operation — lexer `EmitToken`, `EmitType`,
`EmitError`, `Clear`, `EmitEOF`, parser `Emit` (nil or not) and `Clear`
— increments the epoch counter `markerID` exactly once and invalidates
every previously taken marker. -/
theorem c4_flush_bumps_epoch {σ ε A π : Type} (s : LexState σ) (h : s.eofOut = false)
    (ty : Int) (msg : String) (sp : PState ε A π) (hp : sp.eofOut = false) (a : A) :
    lexBump s (s.emitTokenOp ty) ∧
    lexBump s (s.emitTypeOp ty) ∧
    lexBump s (s.emitErrorOp msg) ∧
    lexBump s s.clearOp ∧
    lexBump s s.emitEOFOp ∧
    parBump sp (sp.emitOp (some a)) ∧
    parBump sp (sp.emitOp none) ∧
    parBump sp sp.clearOp := by
  have hmk : ∀ (s1 : LexState σ), s1.markerID = s.markerID + 1 →
      ∀ m : LMarker σ, m.markerID ≤ s.markerID → m.valid s1 = false := by
    intro s1 h1 m hm
    have : (m.markerID == s1.markerID) = false := by
      rw [h1]
      simp only [beq_eq_false_iff_ne, ne_eq]
      omega
    simp [LMarker.valid, this]
  have hmkp : ∀ (s1 : PState ε A π), s1.markerID = sp.markerID + 1 →
      ∀ m : PMarker π, m.markerID ≤ sp.markerID → s1.canReset m = false := by
    intro s1 h1 m hm
    have : (m.markerID == s1.markerID) = false := by
      rw [h1]
      simp only [beq_eq_false_iff_ne, ne_eq]
      omega
    simp [PState.canReset, this]
  refine ⟨?_, ?_, ?_, ?_, ?_, ?_, ?_, ?_⟩
  · refine ⟨s.emit ty true, by simp [LexState.emitTokenOp, h], emit_markerID s ty true, ?_⟩
    exact hmk _ (emit_markerID s ty true)
  · refine ⟨s.emit ty false, by simp [LexState.emitTypeOp, h], emit_markerID s ty false, ?_⟩
    exact hmk _ (emit_markerID s ty false)
  · refine ⟨{ (s.clear false).2 with
        output := (s.clear false).2.output ++
          [⟨TLexErr, fmtErr (s.clear false).2.line (s.clear false).2.column msg,
            (s.clear false).2.line, (s.clear false).2.column⟩] },
      by simp [LexState.emitErrorOp, h], rfl, hmk _ rfl⟩
  · refine ⟨(s.clear false).2, by simp [LexState.clearOp, h], rfl, hmk _ rfl⟩
  · refine ⟨s.emit TEof false, by simp [LexState.emitEOFOp, LexState.emitTypeOp, h],
      emit_markerID s TEof false, ?_⟩
    exact hmk _ (emit_markerID s TEof false)
  · refine ⟨{ sp.clear with output := sp.clear.output ++ [some a] },
      by simp [PState.emitOp, PState.emitGo, hp], rfl, hmkp _ rfl⟩
  · refine ⟨pForceEOF sp, by simp [PState.emitOp, PState.emitGo, hp], rfl, hmkp _ rfl⟩
  · refine ⟨sp.clear, by simp [PState.clearOp, hp], rfl, hmkp _ rfl⟩

/-- A lexer state with one matched rune and clean flags, used as the
concrete flush witness. -/
def c4LexSt : LexState Nat :=
  ⟨[], ['a'], 1, 0, 0, none, [], false, false, 4⟩

/-- A parser state with one matched token and clean flags. -/
def c4ParSt : PState Int Int Nat :=
  ⟨[], [7], 1, none, [], false, false, 4⟩

/-- Witness for `c4_flush_bumps_epoch` at concrete states. -/
theorem c4_flush_bumps_epoch_witness :
    (c4LexSt.eofOut = false ∧ c4ParSt.eofOut = false) ∧
    (lexBump c4LexSt (c4LexSt.emitTokenOp TStart) ∧
     lexBump c4LexSt (c4LexSt.emitTypeOp TStart) ∧
     lexBump c4LexSt (c4LexSt.emitErrorOp "m") ∧
     lexBump c4LexSt c4LexSt.clearOp ∧
     lexBump c4LexSt c4LexSt.emitEOFOp ∧
     parBump c4ParSt (c4ParSt.emitOp (some 9)) ∧
     parBump c4ParSt (c4ParSt.emitOp none) ∧
     parBump c4ParSt c4ParSt.clearOp) :=
  ⟨⟨rfl, rfl⟩, c4_flush_bumps_epoch c4LexSt rfl TStart "m" c4ParSt rfl 9⟩

/-- C5: whenever `CanPeek n` answers true, `Peek n` succeeds without
panicking, returns exactly the `n`-th element of the peek region, and
leaves the engine state unchanged — so repeated peeks keep returning
the same value until the next flush; `CanPeek n` also remains true. -/
theorem c5_canPeek_implies_peek {σ : Type} (s s1 : LexState σ) (n : Nat)
    (h : s.canPeek n = .ok (true, s1)) :
    ∃ c, s1.peek n = .ok (c, s1) ∧
      (s1.cache.drop s1.matchLen).get? (n - 1) = some c ∧
      s1.canPeek n = .ok (true, s1) := by
  simp only [LexState.canPeek] at h
  split at h
  · exact Except.noConfusion h
  rename_i hnlt
  split at h
  · simp at h
  rename_i heo
  simp only [Except.ok.injEq] at h
  have hgp : s.growPeek n = (true, s1) := h
  have hseo : s.eofOut = false := by
    revert heo
    cases s.eofOut <;> simp
  have hidem := growPeek_idem n s s1 hgp
  have hlen := growPeekAux_true_len n s.input s s1 hgp
  have hfr := (growPeekAux_frame n s.input s).1
  rw [show growPeekAux n s.input s = (true, s1) from hgp] at hfr
  simp only at hfr
  rw [hseo] at hfr
  have hdl : n - 1 < (s1.cache.drop s1.matchLen).length := by
    rw [List.length_drop]
    omega
  have hc := List.get?_eq_get hdl
  refine ⟨_, ?_, hc, ?_⟩
  · simp only [LexState.peek]
    rw [if_neg hnlt, if_neg (by rw [hfr]; exact Bool.false_ne_true)]
    simp only [hidem, hc]
  · simp only [LexState.canPeek]
    rw [if_neg hnlt, if_neg (by rw [hfr]; exact Bool.false_ne_true), hidem]

/-- A lexer state whose source holds a single rune. -/
def c5LexSt : LexState Nat :=
  ⟨[⟨some 'a', none⟩], [], 0, 0, 0, none, [], false, false, 0⟩

/-- `c5LexSt` after `CanPeek 1` has grown the peek buffer. -/
def c5LexSt1 : LexState Nat :=
  ⟨[], ['a'], 0, 0, 0, none, [], false, false, 0⟩

/-- Witness for `c5_canPeek_implies_peek` at a concrete state. -/
theorem c5_canPeek_implies_peek_witness :
    (c5LexSt.canPeek 1 = .ok (true, c5LexSt1)) ∧
    (∃ c, c5LexSt1.peek 1 = .ok (c, c5LexSt1) ∧
      (c5LexSt1.cache.drop c5LexSt1.matchLen).get? (1 - 1) = some c ∧
      c5LexSt1.canPeek 1 = .ok (true, c5LexSt1)) :=
  ⟨rfl, c5_canPeek_implies_peek c5LexSt c5LexSt1 1 rfl⟩

/-- C9: in the parser, the `nil` AST is the terminal sentinel:
`Parser.Emit nil` is exactly `EmitEOF` — it discards the matched
tokens and the peek buffer, bumps the epoch, sets both EOF flags and
enqueues the `nil` end marker — and the AST iterator treats a dequeued
`nil` as end-of-stream, so a user can never emit `nil` as an ordinary
item. -/
theorem c9_nil_ast_is_terminal {ε A σ : Type} (s : PState ε A σ) (h : s.eofOut = false)
    (step : ParStep ε A σ) (fuel : Nat) (t : ANexter ε A σ) (rest : List (Option A))
    (ht1 : t.next = none) (ht2 : t.eof = false) (ht3 : t.parser.output = none :: rest) :
    s.emitOp none = s.emitEOFOp ∧
    s.emitOp none = .ok (pForceEOF s) ∧
    pForceEOF s =
      ⟨s.input, [], 0, s.nextFn, s.output ++ [none], true, true, s.markerID + 1⟩ ∧
    anNext step fuel t =
      some (.eofEnd, { t with parser := { t.parser with output := rest }, eof := true }) := by
  refine ⟨rfl, by simp [PState.emitOp, PState.emitGo, h], rfl, ?_⟩
  obtain ⟨⟨inp, cach, mlen, nfn, outq, efi, efo, mid⟩, nx, ef⟩ := t
  simp only at ht1 ht2 ht3
  subst ht1
  subst ht2
  subst ht3
  cases fuel with
  | zero => rfl
  | succ k => rfl

/-- A parser state about to emit, with one matched token. -/
def c9ParSt : PState Int Int Nat :=
  ⟨[], [7], 1, some 0, [], false, false, 2⟩

/-- An AST iterator whose parser has the `nil` end marker queued ahead
of it. -/
def c9ANx : ANexter Int Int Nat :=
  ⟨⟨[], [], 0, none, [none], true, true, 3⟩, none, false⟩

/-- Witness for `c9_nil_ast_is_terminal` at concrete states. -/
theorem c9_nil_ast_is_terminal_witness :
    (c9ParSt.eofOut = false ∧ c9ANx.next = none ∧ c9ANx.eof = false ∧
     c9ANx.parser.output = none :: []) ∧
    (c9ParSt.emitOp none = c9ParSt.emitEOFOp ∧
     c9ParSt.emitOp none = .ok (pForceEOF c9ParSt) ∧
     pForceEOF c9ParSt =
       ⟨c9ParSt.input, [], 0, c9ParSt.nextFn, c9ParSt.output ++ [none], true, true,
        c9ParSt.markerID + 1⟩ ∧
     anNext (fun _ s => (s, none)) 5 c9ANx =
       some (.eofEnd, { c9ANx with parser := { c9ANx.parser with output := [] }, eof := true })) :=
  ⟨⟨rfl, rfl, rfl, rfl⟩,
   c9_nil_ast_is_terminal c9ParSt rfl (fun _ s => (s, none)) 5 c9ANx [] rfl rfl rfl⟩

/-- C6: a queued `TLexErr` token is surfaced by `tokenNexter.Next` as a
recoverable error result (distinct from End): the iterator's `eof` flag
stays false, the stream is not terminated, and the following `Next`
call proceeds to the next queued token normally. -/
theorem c6_error_item_is_recoverable {σ : Type} (step : LexStep σ) (fuel : Nat)
    (t : TNexter σ) (etok : Tok) (rest : List Tok)
    (h1 : t.next = none) (h2 : t.eof = false) (h3 : t.lexer.output = etok :: rest)
    (h4 : etok.typ = TLexErr) :
    tnNext step fuel t =
      some (.errMsg etok.value, ⟨{ t.lexer with output := rest }, none, false⟩) ∧
    (∀ tok2 rest2, rest = tok2 :: rest2 → tok2.typ ≠ TLexErr → tok2.typ ≠ TEof →
      tnNext step fuel ⟨{ t.lexer with output := rest }, none, false⟩ =
        some (.item tok2, ⟨{ t.lexer with output := rest2 }, none, false⟩)) := by
  obtain ⟨⟨inp, cach, mlen, lin, col, nfn, outq, efi, efo, mid⟩, nx, ef⟩ := t
  simp only at h1 h2 h3
  subst h1
  subst h2
  subst h3
  have hne : etok.typ ≠ TEof := by
    rw [h4]
    decide
  constructor
  · cases fuel with
    | zero =>
      simp [tnNext, tnHasNext, tnLoop, hne, h4, TLexErr, TEof]
    | succ k =>
      simp [tnNext, tnHasNext, tnLoop, hne, h4, TLexErr, TEof]
  · intro tok2 rest2 hrest hnerr hneof
    subst hrest
    cases fuel with
    | zero =>
      simp [tnNext, tnHasNext, tnLoop, hnerr, hneof]
    | succ k =>
      simp [tnNext, tnHasNext, tnLoop, hnerr, hneof]

/-- A lexer nexter whose output queue starts with an embedded error
token followed by a user token. -/
def c6TNx : TNexter Nat :=
  ⟨⟨[], [], 0, 0, 0, none, [⟨0, "bad", 1, 1⟩, ⟨3, "X", 1, 2⟩], true, false, 1⟩, none, false⟩

/-- Witness for `c6_error_item_is_recoverable` at a concrete nexter. -/
theorem c6_error_item_is_recoverable_witness :
    (c6TNx.next = none ∧ c6TNx.eof = false ∧
     c6TNx.lexer.output = (⟨0, "bad", 1, 1⟩ : Tok) :: [⟨3, "X", 1, 2⟩] ∧
     (⟨0, "bad", 1, 1⟩ : Tok).typ = TLexErr) ∧
    (tnNext (fun _ s => (s, none)) 5 c6TNx =
       some (.errMsg (⟨0, "bad", 1, 1⟩ : Tok).value,
             ⟨{ c6TNx.lexer with output := [⟨3, "X", 1, 2⟩] }, none, false⟩) ∧
     (∀ tok2 rest2, [(⟨3, "X", 1, 2⟩ : Tok)] = tok2 :: rest2 →
        tok2.typ ≠ TLexErr → tok2.typ ≠ TEof →
        tnNext (fun _ s => (s, none)) 5
            ⟨{ c6TNx.lexer with output := [⟨3, "X", 1, 2⟩] }, none, false⟩ =
          some (.item tok2, ⟨{ c6TNx.lexer with output := rest2 }, none, false⟩))) :=
  ⟨⟨rfl, rfl, rfl, rfl⟩,
   c6_error_item_is_recoverable (fun _ s => (s, none)) 5 c6TNx ⟨0, "bad", 1, 1⟩
     [⟨3, "X", 1, 2⟩] rfl rfl rfl rfl⟩

/-- When the driver's `CanPeek(1)` check answers true, the state it
leaves behind satisfies `CanPeek(1) = true` stably, and both `Peek(1)`
and `Next` succeed on it (returning the same first peek element). -/
theorem canPeekB_true_spec {σ : Type} (s l1 : LexState σ)
    (h : canPeekB s = (true, l1)) :
    l1.canPeek 1 = .ok (true, l1) ∧
    (∃ c, l1.peek 1 = .ok (c, l1) ∧
          l1.next = .ok (c, { l1 with matchLen := l1.matchLen + 1 })) := by
  have heo : s.eofOut = false := by
    by_contra hx
    have hx2 : s.eofOut = true := by
      revert hx
      cases s.eofOut <;> simp
    simp [canPeekB, hx2] at h
  have hgp : s.growPeek 1 = (true, l1) := by
    simpa [canPeekB, heo] using h
  have hidem := growPeek_idem 1 s l1 hgp
  have hlen := growPeekAux_true_len 1 s.input s l1 hgp
  have hfr := (growPeekAux_frame 1 s.input s).1
  rw [show growPeekAux 1 s.input s = (true, l1) from hgp] at hfr
  simp only at hfr
  rw [heo] at hfr
  have hdl : 0 < (l1.cache.drop l1.matchLen).length := by
    rw [List.length_drop]
    omega
  have hc := List.get?_eq_get hdl
  refine ⟨?_, ⟨(l1.cache.drop l1.matchLen).get ⟨0, hdl⟩, ?_, ?_⟩⟩
  · simp only [LexState.canPeek]
    rw [if_neg (by omega), if_neg (by rw [hfr]; exact Bool.false_ne_true), hidem]
  · simp only [LexState.peek]
    rw [if_neg (by omega), if_neg (by rw [hfr]; exact Bool.false_ne_true)]
    simp only [hidem, Nat.sub_self, hc]
  · simp only [LexState.next]
    rw [if_neg (by rw [hfr]; exact Bool.false_ne_true)]
    simp only [hidem, hc]

/-- Parser analogue of `canPeekB_true_spec`. -/
theorem pCanPeekB_true_spec {ε A σ : Type} (s l1 : PState ε A σ)
    (h : pCanPeekB s = (true, l1)) :
    l1.canPeek 1 = .ok (true, l1) ∧
    (∃ c, l1.peek 1 = .ok (c, l1) ∧
          l1.next = .ok (c, { l1 with matchLen := l1.matchLen + 1 })) := by
  have heo : s.eofOut = false := by
    by_contra hx
    have hx2 : s.eofOut = true := by
      revert hx
      cases s.eofOut <;> simp
    simp [pCanPeekB, hx2] at h
  have hgp : s.growPeek 1 = (true, l1) := by
    simpa [pCanPeekB, heo] using h
  have hidem := pGrowPeek_idem 1 s l1 hgp
  have hlen := pGrowPeekAux_true_len 1 s.input s l1 hgp
  have hfr := (pGrowPeekAux_frame 1 s.input s).1
  rw [show pGrowPeekAux 1 s.input s = (true, l1) from hgp] at hfr
  simp only at hfr
  rw [heo] at hfr
  have hdl : 0 < (l1.cache.drop l1.matchLen).length := by
    rw [List.length_drop]
    omega
  have hc := List.get?_eq_get hdl
  refine ⟨?_, ⟨(l1.cache.drop l1.matchLen).get ⟨0, hdl⟩, ?_, ?_⟩⟩
  · simp only [PState.canPeek]
    rw [if_neg (by omega), if_neg (by rw [hfr]; exact Bool.false_ne_true), hidem]
  · simp only [PState.peek]
    rw [if_neg (by omega), if_neg (by rw [hfr]; exact Bool.false_ne_true)]
    simp only [hidem, Nat.sub_self, hc]
  · simp only [PState.next]
    rw [if_neg (by rw [hfr]; exact Bool.false_ne_true)]
    simp only [hidem, hc]

/-- C7: when the driver invokes a transition function (lexer and parser
alike), it does so exactly on the state produced by its `CanPeek(1)`
check, and on that state `CanPeek(1)` returns true stably, so a first
`Peek(1)` or `Next` inside the transition function cannot hit the
no-element-available failure branch. -/
theorem c7_driver_guarantees_canPeek {σ ε A π : Type}
    (step : LexStep σ) (fuel : Nat) (t : TNexter σ) (f : σ)
    (h1 : t.lexer.output = []) (h2 : t.lexer.nextFn = some f)
    (h3 : (canPeekB t.lexer).1 = true)
    (stepP : ParStep ε A π) (fuelP : Nat) (u : ANexter ε A π) (g : π)
    (k1 : u.parser.output = []) (k2 : u.parser.nextFn = some g)
    (k3 : (pCanPeekB u.parser).1 = true) :
    tnLoop step (fuel + 1) t =
      tnLoop step fuel
        { t with lexer := { (step f (canPeekB t.lexer).2).1 with
                            nextFn := (step f (canPeekB t.lexer).2).2 } } ∧
    LexState.canPeek (canPeekB t.lexer).2 1 = .ok (true, (canPeekB t.lexer).2) ∧
    (∃ c, LexState.peek (canPeekB t.lexer).2 1 = .ok (c, (canPeekB t.lexer).2) ∧
          LexState.next (canPeekB t.lexer).2 =
            .ok (c, { (canPeekB t.lexer).2 with
                      matchLen := (canPeekB t.lexer).2.matchLen + 1 })) ∧
    anLoop stepP (fuelP + 1) u =
      anLoop stepP fuelP
        { u with parser := { (stepP g (pCanPeekB u.parser).2).1 with
                             nextFn := (stepP g (pCanPeekB u.parser).2).2 } } ∧
    PState.canPeek (pCanPeekB u.parser).2 1 = .ok (true, (pCanPeekB u.parser).2) ∧
    (∃ c, PState.peek (pCanPeekB u.parser).2 1 = .ok (c, (pCanPeekB u.parser).2) ∧
          PState.next (pCanPeekB u.parser).2 =
            .ok (c, { (pCanPeekB u.parser).2 with
                      matchLen := (pCanPeekB u.parser).2.matchLen + 1 })) := by
  have hcbL : canPeekB t.lexer = (true, (canPeekB t.lexer).2) := by
    rw [← h3]
  have hcbP : pCanPeekB u.parser = (true, (pCanPeekB u.parser).2) := by
    rw [← k3]
  obtain ⟨hL1, hL2⟩ := canPeekB_true_spec t.lexer _ hcbL
  obtain ⟨hP1, hP2⟩ := pCanPeekB_true_spec u.parser _ hcbP
  refine ⟨?_, hL1, hL2, ?_, hP1, hP2⟩
  · obtain ⟨lex, nx, ef⟩ := t
    simp only at h1 h2 h3 ⊢
    simp only [tnLoop, h1, h2, h3, if_true]
  · obtain ⟨par, nx, ef⟩ := u
    simp only at k1 k2 k3 ⊢
    simp only [anLoop, k1, k2, k3, if_true]

/-- A concrete lexer transition dispatch that always shuts down. -/
def c7Step : LexStep Nat := fun _ s => (s, none)

/-- A concrete parser transition dispatch that always shuts down. -/
def c7PStep : ParStep Int Int Nat := fun _ s => (s, none)

/-- A lexer nexter with one pending source rune and continuation `0`. -/
def c7TNx : TNexter Nat :=
  ⟨⟨[⟨some 'a', none⟩], [], 0, 0, 0, some 0, [], false, false, 0⟩, none, false⟩

/-- A parser nexter with one pending source token and continuation `0`. -/
def c7ANx : ANexter Int Int Nat :=
  ⟨⟨[⟨some 7, none⟩], [], 0, some 0, [], false, false, 0⟩, none, false⟩

/-- Witness for `c7_driver_guarantees_canPeek` at concrete nexters. -/
theorem c7_driver_guarantees_canPeek_witness :
    (c7TNx.lexer.output = [] ∧ c7TNx.lexer.nextFn = some 0 ∧
     (canPeekB c7TNx.lexer).1 = true ∧
     c7ANx.parser.output = [] ∧ c7ANx.parser.nextFn = some 0 ∧
     (pCanPeekB c7ANx.parser).1 = true) ∧
    (tnLoop c7Step (0 + 1) c7TNx =
       tnLoop c7Step 0
         { c7TNx with lexer := { (c7Step 0 (canPeekB c7TNx.lexer).2).1 with
                                 nextFn := (c7Step 0 (canPeekB c7TNx.lexer).2).2 } } ∧
     LexState.canPeek (canPeekB c7TNx.lexer).2 1 = .ok (true, (canPeekB c7TNx.lexer).2) ∧
     (∃ c, LexState.peek (canPeekB c7TNx.lexer).2 1 = .ok (c, (canPeekB c7TNx.lexer).2) ∧
           LexState.next (canPeekB c7TNx.lexer).2 =
             .ok (c, { (canPeekB c7TNx.lexer).2 with
                       matchLen := (canPeekB c7TNx.lexer).2.matchLen + 1 })) ∧
     anLoop c7PStep (0 + 1) c7ANx =
       anLoop c7PStep 0
         { c7ANx with parser := { (c7PStep 0 (pCanPeekB c7ANx.parser).2).1 with
                                  nextFn := (c7PStep 0 (pCanPeekB c7ANx.parser).2).2 } } ∧
     PState.canPeek (pCanPeekB c7ANx.parser).2 1 = .ok (true, (pCanPeekB c7ANx.parser).2) ∧
     (∃ c, PState.peek (pCanPeekB c7ANx.parser).2 1 = .ok (c, (pCanPeekB c7ANx.parser).2) ∧
           PState.next (pCanPeekB c7ANx.parser).2 =
             .ok (c, { (pCanPeekB c7ANx.parser).2 with
                       matchLen := (pCanPeekB c7ANx.parser).2.matchLen + 1 }))) :=
  ⟨⟨rfl, rfl, rfl, rfl, rfl, rfl⟩,
   c7_driver_guarantees_canPeek c7Step 0 c7TNx 0 rfl rfl rfl
     c7PStep 0 c7ANx 0 rfl rfl rfl⟩

/-- C1: every stream ends with exactly one terminal.  When the driver
runs with an empty output queue and a continuation that is gone (or a
`CanPeek(1)` check that fails), it auto-emits exactly one EOF sentinel
(the emitted queue is exactly one `TEof` token / one `nil` marker),
the iterator consumes it and answers End; and once any `Next` call has
answered End, every later `Next` call answers End forever — for the
lexer and the parser alike. -/
theorem c1_exactly_one_terminal {σ ε A π : Type}
    (step : LexStep σ) (t : TNexter σ)
    (h1 : t.next = none) (h2 : t.eof = false) (h3 : t.lexer.output = [])
    (h4 : t.lexer.eofOut = false)
    (stepP : ParStep ε A π) (u : ANexter ε A π)
    (k1 : u.next = none) (k2 : u.eof = false) (k3 : u.parser.output = [])
    (k4 : u.parser.eofOut = false) :
    (t.lexer.nextFn = none →
      ∃ tok t1, tok.typ = TEof ∧
        (t.lexer.emit TEof false).output = [tok] ∧
        tnNext step 1 t = some (.eofEnd, t1) ∧
        t1.next = none ∧ t1.eof = true ∧ t1.lexer.eofOut = true ∧
        t1.lexer.output = []) ∧
    (∀ f, t.lexer.nextFn = some f → (canPeekB t.lexer).1 = false →
      ∃ tok t1, tok.typ = TEof ∧
        ((canPeekB t.lexer).2.emit TEof false).output = [tok] ∧
        tnNext step 1 t = some (.eofEnd, t1) ∧
        t1.next = none ∧ t1.eof = true ∧ t1.lexer.eofOut = true ∧
        t1.lexer.output = []) ∧
    (∀ (fuel1 fuel2 : Nat) (w w1 : TNexter σ),
      tnNext step fuel1 w = some (.eofEnd, w1) →
      tnNext step fuel2 w1 = some (.eofEnd, w1)) ∧
    (u.parser.nextFn = none →
      ∃ u1, (pForceEOF u.parser).output = [none] ∧
        anNext stepP 1 u = some (.eofEnd, u1) ∧
        u1.next = none ∧ u1.eof = true ∧ u1.parser.eofOut = true ∧
        u1.parser.output = []) ∧
    (∀ g, u.parser.nextFn = some g → (pCanPeekB u.parser).1 = false →
      ∃ u1, (pForceEOF (pCanPeekB u.parser).2).output = [none] ∧
        anNext stepP 1 u = some (.eofEnd, u1) ∧
        u1.next = none ∧ u1.eof = true ∧ u1.parser.eofOut = true ∧
        u1.parser.output = []) ∧
    (∀ (fuel1 fuel2 : Nat) (w w1 : ANexter ε A π),
      anNext stepP fuel1 w = some (.eofEnd, w1) →
      anNext stepP fuel2 w1 = some (.eofEnd, w1)) := by
  obtain ⟨⟨inp, cach, mlen, lin, col, nfn, outq, efi, efo, mid⟩, nx, ef⟩ := t
  obtain ⟨⟨pinp, pcach, pmlen, pnfn, poutq, pefi, pefo, pmid⟩, pnx, pef⟩ := u
  simp only at h1 h2 h3 h4 k1 k2 k3 k4
  subst h1
  subst h2
  subst h3
  subst h4
  subst k1
  subst k2
  subst k3
  subst k4
  refine ⟨?_, ?_, ?_, ?_, ?_, ?_⟩
  · intro hfn
    simp only at hfn
    subst hfn
    obtain ⟨v, li, co, li2, co2, hemit⟩ :=
      emit_TEof_spec (⟨inp, cach, mlen, lin, col, none, [], efi, false, mid⟩ : LexState σ)
    refine ⟨⟨TEof, v, li, co⟩,
      ⟨⟨inp, [], 0, li2, co2, none, [], true, true, mid + 1⟩, none, true⟩,
      rfl, ?_, ?_, rfl, rfl, rfl, rfl⟩
    · simp [hemit]
    · simp [tnNext, tnHasNext, tnLoop, hemit]
  · intro f hfn hcpf
    simp only at hfn
    subst hfn
    have hcb : canPeekB (⟨inp, cach, mlen, lin, col, some f, [], efi, false, mid⟩ : LexState σ) =
        ((⟨inp, cach, mlen, lin, col, some f, [], efi, false, mid⟩ : LexState σ).growPeek 1) := by
      simp [canPeekB]
    rw [hcb] at hcpf ⊢
    rcases hgp : (⟨inp, cach, mlen, lin, col, some f, [], efi, false, mid⟩ :
        LexState σ).growPeek 1 with ⟨b, l2⟩
    rw [hgp] at hcpf
    simp only at hcpf
    subst hcpf
    have hfr := growPeekAux_frame 1 inp
      (⟨inp, cach, mlen, lin, col, some f, [], efi, false, mid⟩ : LexState σ)
    rw [show growPeekAux 1 inp
        (⟨inp, cach, mlen, lin, col, some f, [], efi, false, mid⟩ : LexState σ) =
        (false, l2) from hgp] at hfr
    simp only at hfr
    have heol2 : l2.eofOut = false := hfr.1
    have houtl2 : l2.output = [] := hfr.2.2.1
    have hcb2 : canPeekB (⟨inp, cach, mlen, lin, col, some f, [], efi, false, mid⟩ :
        LexState σ) = (false, l2) := by
      rw [hcb, hgp]
    obtain ⟨v, li, co, li2, co2, hemit⟩ := emit_TEof_spec l2
    refine ⟨⟨TEof, v, li, co⟩,
      ⟨⟨l2.input, [], 0, li2, co2, l2.nextFn, [], true, true, l2.markerID + 1⟩, none, true⟩,
      rfl, ?_, ?_, rfl, rfl, rfl, rfl⟩
    · simp [hemit, houtl2]
    · simp [tnNext, tnHasNext, tnLoop, hcb2, heol2, hemit, houtl2]
  · intro f1 f2 w w1 hw
    obtain ⟨hn1, he1⟩ := tnNext_eofEnd_inv step f1 w w1 hw
    exact tnNext_end_forever step f2 w1 hn1 he1
  · intro hfn
    simp only at hfn
    subst hfn
    refine ⟨⟨⟨pinp, [], 0, none, [], true, true, pmid + 1⟩, none, true⟩,
      rfl, ?_, rfl, rfl, rfl, rfl⟩
    simp [anNext, anHasNext, anLoop, pForceEOF]
  · intro g hfn hcpf
    simp only at hfn
    subst hfn
    have hcb : pCanPeekB (⟨pinp, pcach, pmlen, some g, [], pefi, false, pmid⟩ :
        PState ε A π) =
        ((⟨pinp, pcach, pmlen, some g, [], pefi, false, pmid⟩ : PState ε A π).growPeek 1) := by
      simp [pCanPeekB]
    rw [hcb] at hcpf ⊢
    rcases hgp : (⟨pinp, pcach, pmlen, some g, [], pefi, false, pmid⟩ :
        PState ε A π).growPeek 1 with ⟨b, l2⟩
    rw [hgp] at hcpf
    simp only at hcpf
    subst hcpf
    have hfr := pGrowPeekAux_frame 1 pinp
      (⟨pinp, pcach, pmlen, some g, [], pefi, false, pmid⟩ : PState ε A π)
    rw [show pGrowPeekAux 1 pinp
        (⟨pinp, pcach, pmlen, some g, [], pefi, false, pmid⟩ : PState ε A π) =
        (false, l2) from hgp] at hfr
    simp only at hfr
    have heol2 : l2.eofOut = false := hfr.1
    have houtl2 : l2.output = [] := hfr.2.2.1
    have hcb2 : pCanPeekB (⟨pinp, pcach, pmlen, some g, [], pefi, false, pmid⟩ :
        PState ε A π) = (false, l2) := by
      rw [hcb, hgp]
    refine ⟨⟨⟨l2.input, [], 0, l2.nextFn, [], true, true, l2.markerID + 1⟩, none, true⟩,
      ?_, ?_, rfl, rfl, rfl, rfl⟩
    · simp [pForceEOF, houtl2]
    · simp [anNext, anHasNext, anLoop, hcb2, heol2, pForceEOF, houtl2]
  · intro f1 f2 w w1 hw
    obtain ⟨hn1, he1⟩ := anNext_eofEnd_inv stepP f1 w w1 hw
    exact anNext_end_forever stepP f2 w1 hn1 he1

/-- A lexer dispatch for the terminal-behaviour witness. -/
def c1Step : LexStep Nat := fun _ s => (s, none)

/-- A parser dispatch for the terminal-behaviour witness. -/
def c1PStep : ParStep Int Int Nat := fun _ s => (s, none)

/-- A stalled lexer nexter: empty output queue and no continuation. -/
def c1TNx : TNexter Nat :=
  ⟨⟨[], [], 0, 0, 0, none, [], false, false, 0⟩, none, false⟩

/-- A stalled parser nexter: empty output queue and no continuation. -/
def c1ANx : ANexter Int Int Nat :=
  ⟨⟨[], [], 0, none, [], false, false, 0⟩, none, false⟩

/-- Witness for `c1_exactly_one_terminal` at concrete stalled nexters. -/
theorem c1_exactly_one_terminal_witness :
    (c1TNx.next = none ∧ c1TNx.eof = false ∧ c1TNx.lexer.output = [] ∧
     c1TNx.lexer.eofOut = false ∧ c1ANx.next = none ∧ c1ANx.eof = false ∧
     c1ANx.parser.output = [] ∧ c1ANx.parser.eofOut = false) ∧
    ((c1TNx.lexer.nextFn = none →
       ∃ tok t1, tok.typ = TEof ∧
         (c1TNx.lexer.emit TEof false).output = [tok] ∧
         tnNext c1Step 1 c1TNx = some (.eofEnd, t1) ∧
         t1.next = none ∧ t1.eof = true ∧ t1.lexer.eofOut = true ∧
         t1.lexer.output = []) ∧
     (∀ f, c1TNx.lexer.nextFn = some f → (canPeekB c1TNx.lexer).1 = false →
       ∃ tok t1, tok.typ = TEof ∧
         ((canPeekB c1TNx.lexer).2.emit TEof false).output = [tok] ∧
         tnNext c1Step 1 c1TNx = some (.eofEnd, t1) ∧
         t1.next = none ∧ t1.eof = true ∧ t1.lexer.eofOut = true ∧
         t1.lexer.output = []) ∧
     (∀ (fuel1 fuel2 : Nat) (w w1 : TNexter Nat),
       tnNext c1Step fuel1 w = some (.eofEnd, w1) →
       tnNext c1Step fuel2 w1 = some (.eofEnd, w1)) ∧
     (c1ANx.parser.nextFn = none →
       ∃ u1, (pForceEOF c1ANx.parser).output = [none] ∧
         anNext c1PStep 1 c1ANx = some (.eofEnd, u1) ∧
         u1.next = none ∧ u1.eof = true ∧ u1.parser.eofOut = true ∧
         u1.parser.output = []) ∧
     (∀ g, c1ANx.parser.nextFn = some g → (pCanPeekB c1ANx.parser).1 = false →
       ∃ u1, (pForceEOF (pCanPeekB c1ANx.parser).2).output = [none] ∧
         anNext c1PStep 1 c1ANx = some (.eofEnd, u1) ∧
         u1.next = none ∧ u1.eof = true ∧ u1.parser.eofOut = true ∧
         u1.parser.output = []) ∧
     (∀ (fuel1 fuel2 : Nat) (w w1 : ANexter Int Int Nat),
       anNext c1PStep fuel1 w = some (.eofEnd, w1) →
       anNext c1PStep fuel2 w1 = some (.eofEnd, w1))) :=
  ⟨⟨rfl, rfl, rfl, rfl, rfl, rfl, rfl, rfl⟩,
   c1_exactly_one_terminal c1Step c1TNx rfl rfl rfl rfl
     c1PStep c1ANx rfl rfl rfl rfl⟩
